import Mathlib

/-!
Verification of the fixed-point RNN engine (`c_implementation`): a shallow
embedding of `math/fixed_point_ops.c` and `layers/layers.c` over `Int`, with
16-bit twos-complement wrapping made explicit, plus theorems settling the
specification claims.

Conventions: C `int16_t` values are integers in `[-32768, 32767]`; every C
conversion to `int16_t` is modelled by `toInt16` (twos-complement wrap).
C `/` on `int` truncates toward zero and is modelled by `Int.tdiv`; a C
division by zero is undefined behavior, modelled totally by the Lean
`Int.tdiv _ 0 = 0` convention and flagged separately by `fp_div_checked`.
-/

/-- Twos-complement wrap of an integer into the `int16_t` range
`[-32768, 32767]`; models every implicit C conversion to `int16_t`. -/
def toInt16 (n : Int) : Int := (n + 32768) % 65536 - 32768

/-- From `fixed_point_ops.c`: `fp_add(x, y) { return x + y; }` (the `int`
sum is converted back to `int16_t` on return). -/
def fp_add (x y : Int) : Int := toInt16 (x + y)

/-- From `fixed_point_ops.c`: `fp_sub(x, y) { return x - y; }`. -/
def fp_sub (x y : Int) : Int := toInt16 (x - y)

/-- From `fixed_point_ops.c`:
`fp_mul(x, y, precision) { return (int16_t) (((int) x * (int) y) / (1 << precision)); }`.
The product is exact in the widened `int` type; the truncating C division is
`Int.tdiv`; the cast to `int16_t` is `toInt16`. -/
def fp_mul (x y : Int) (precision : Nat) : Int :=
  toInt16 ((x * y).tdiv (2 ^ precision))

/-- From `fixed_point_ops.c`:
`fp_div(x, y, precision) { return (int16_t) (((int) x * (1 << precision)) / y); }`.
For `y = 0` the C code has undefined behavior; here `Int.tdiv _ 0 = 0`. -/
def fp_div (x y : Int) (precision : Nat) : Int :=
  toInt16 ((x * 2 ^ precision).tdiv y)

/-- Modelled from the spec: `div(x,y,precision)` "fails (or is undefined)
when `y == 0`" (§4.1, §7). The checked variant returns `none` exactly on the
undefined case and otherwise agrees with `fp_div`. -/
def fp_div_checked (x y : Int) (precision : Nat) : Option Int :=
  if y = 0 then none else some (fp_div x y precision)

/-- From `fixed_point_ops.c`: `fp_neg(x) { return -1 * x; }` (the `int`
product is converted back to `int16_t`). Note `fp_neg (-32768) = -32768`. -/
def fp_neg (x : Int) : Int := toInt16 (-x)

/-- From `fixed_point_ops.c`: `int_to_fp(x, precision) { return x * (1 << precision); }`. -/
def int_to_fp (x : Int) (precision : Nat) : Int := toInt16 (x * 2 ^ precision)

/-- Modelled from the spec: the iteration cap of the power-series exponential
(`POWER_SERIES_TERMS`, declared in `fixed_point_ops.h`, which is not part of
the sources). The spec only says "a fixed iteration cap"; the value 7 is the
unique cap consistent with the repository tests
(`fp_exp(64,5) == 233` and `fp_exp(fp_neg(512),8) == 43` both fail for any
other cap). -/
def POWER_SERIES_TERMS : Nat := 7

/-- The `for` loop of `fp_exp` in `fixed_point_ops.c`, with
`fuel = POWER_SERIES_TERMS - i` so that `fuel = 0` is the cap test `i <
POWER_SERIES_TERMS` failing; the second exit condition is `prev_result !=
result`. State: loop counter `i` (a C `int`), `acc`, `fact`, `result`,
`prev_result`. -/
def fp_exp_loop (x : Int) (precision : Nat) : Nat → Int → Int → Int → Int → Int → Int
  | 0, _, _, _, result, _ => result
  | fuel + 1, i, acc, fact, result, prev_result =>
    if prev_result = result then result
    else
      fp_exp_loop x precision fuel (i + 1) (fp_mul x acc precision)
        (fp_mul fact (toInt16 (i * 2 ^ precision)) precision)
        (fp_add (fp_div (fp_mul x acc precision)
          (fp_mul fact (toInt16 (i * 2 ^ precision)) precision) precision) result)
        result

/-- From `fixed_point_ops.c`: `fp_exp` (power-series exponential). A negative
argument is mirrored through `fp_neg` and the series result inverted via
`fp_div(int_to_fp(1, precision), result, precision)`. -/
def fp_exp (x : Int) (precision : Nat) : Int :=
  let xm := if x < 0 then fp_neg x else x
  let result := fp_exp_loop xm precision (POWER_SERIES_TERMS - 1) 1
    (toInt16 (2 ^ precision)) (toInt16 (2 ^ precision)) (toInt16 (2 ^ precision)) 0
  if x < 0 then fp_div (int_to_fp 1 precision) result precision else result

/-- The sign-free core of `fp_tanh` in `fixed_point_ops.c`: the rational
approximant `x * (1 + x^2/8) / (1 + x^2/2)` evaluated in fixed point on the
(already mirrored) argument, before sign restoration and clipping.
`1 << (precision - 3)` and `1 << (precision - 1)` require `precision >= 3`
in C; for smaller precisions the C shift is undefined (see `fp_tanh_shift_amounts`). -/
def fp_tanh_core (x : Int) (precision : Nat) : Int :=
  let one_eighth := toInt16 (2 ^ (precision - 3))
  let one_half := toInt16 (2 ^ (precision - 1))
  let one := int_to_fp 1 precision
  let x_squared := fp_mul x x precision
  let num := fp_add one (fp_mul x_squared one_eighth precision)
  let den := fp_add one (fp_mul x_squared one_half precision)
  let rational_factor := fp_div num den precision
  fp_mul x rational_factor precision

/-- From `fixed_point_ops.c`: `fp_tanh`. Negative inputs are mirrored with
`fp_neg`, the core rational approximant is evaluated, the sign is restored by
`fp_neg`, and the result is clipped to `[-int_to_fp(1,p), int_to_fp(1,p)]`. -/
def fp_tanh (x : Int) (precision : Nat) : Int :=
  let xm := if x < 0 then fp_neg x else x
  let core := fp_tanh_core xm precision
  let result := if x < 0 then fp_neg core else core
  let one := int_to_fp 1 precision
  let neg_one := fp_neg one
  if result > one then one
  else if result < neg_one then neg_one
  else result

/-- From `fixed_point_ops.c`: `fp_sigmoid`, derived from `fp_tanh` via
`sigma(x) = (tanh(x/2) + 1) / 2`; negative inputs are mirrored and the result
complemented (`one - result`). -/
def fp_sigmoid (x : Int) (precision : Nat) : Int :=
  let xm := if x < 0 then fp_neg x else x
  let one := toInt16 (2 ^ precision)
  let one_half := toInt16 (2 ^ (precision - 1))
  let tanh := fp_tanh (fp_mul xm one_half precision) precision
  let result := fp_mul (fp_add tanh one) one_half precision
  if x < 0 then toInt16 (one - result) else result

/-- The shift amounts `precision - 3` and `precision - 1` computed by
`fp_tanh` (`fixed_point_ops.c`, the `one_eighth` and `one_half` constants);
a negative amount is undefined behavior in C. -/
def fp_tanh_shift_amounts (precision : Int) : List Int :=
  [precision - 3, precision - 1]

/-- The shift amounts `precision` and `precision - 1` computed by
`fp_sigmoid` (`fixed_point_ops.c`, the `one` and `one_half` constants). -/
def fp_sigmoid_shift_amounts (precision : Int) : List Int :=
  [precision, precision - 1]

-- Matrix collaborator (spec section 6) and layer compositions (`layers.c`).
-- Per the spec data model, the state, inputs, biases and all cell
-- intermediates are column vectors (`hidden_size x 1` matrices), modelled as
-- `List Int`; weight matrices are lists of rows.

/-- Modelled from the spec: the fixed-point dot product underlying
`matrix_multiply` (`matrix.c` is an external collaborator, not in the
sources): elementwise `fp_mul` at the shared precision, accumulated with
`fp_add` from zero. -/
def dotProd (row v : List Int) (precision : Nat) : Int :=
  (List.zipWith (fun a b => fp_mul a b precision) row v).foldl fp_add 0

/-- Modelled from the spec: `multiply(dst, A, B, precision) -> dst := A*B`
(spec section 6) for a column-vector right operand. -/
def matVec (W : List (List Int)) (v : List Int) (precision : Nat) : List Int :=
  W.map (fun row => dotProd row v precision)

/-- Modelled from the spec: `add(dst, A, B)`, elementwise `fp_add`. -/
def matrix_add (a b : List Int) : List Int := List.zipWith fp_add a b

/-- Modelled from the spec: `hadamard(dst, A, B, precision)`, elementwise
`fp_mul`. -/
def matrix_hadamard (a b : List Int) (precision : Nat) : List Int :=
  List.zipWith (fun u v => fp_mul u v precision) a b

/-- Modelled from the spec: `map(dst, A, f, precision) -> dst[i] := f(A[i],
precision)` (`apply_elementwise`). -/
def apply_elementwise (a : List Int) (f : Int → Nat → Int) (precision : Nat) : List Int :=
  a.map (fun u => f u precision)

/-- Modelled from the spec: `scalarProduct(dst, A, k, precision)`,
elementwise fixed-point scale. -/
def scalar_product (a : List Int) (k : Int) (precision : Nat) : List Int :=
  a.map (fun u => fp_mul u k precision)

/-- Modelled from the spec: `scalarAdd(dst, A, k)`, elementwise offset. -/
def scalar_add (a : List Int) (k : Int) : List Int :=
  a.map (fun u => fp_add u k)

/-- Modelled from the spec: `stack(dst, A, B)`, vertical concatenation of
column vectors. -/
def stack (a b : List Int) : List Int := a ++ b

/-- Modelled from the spec: `allocate(rows, cols) -> zero-initialized
matrix` / `set(dst, 0)`, for a column vector of `n` rows. -/
def zeroVec (n : Nat) : List Int := List.replicate n 0

/-- From `layers.c`: `apply_gate(result, gate, first, second, precision)`:
`opp_gate := scalar_add(scalar_product(opp_gate, gate, int_to_fp(-1,p), p),
int_to_fp(1,p))`, then `opp_gate := hadamard(second, opp_gate)` and
`result := hadamard(first, gate) + opp_gate`. -/
def apply_gate (gate first second : List Int) (precision : Nat) : List Int :=
  let opp_gate := scalar_add (scalar_product gate (int_to_fp (-1) precision) precision)
    (int_to_fp 1 precision)
  let opp_gate2 := matrix_hadamard second opp_gate precision
  matrix_add (matrix_hadamard first gate precision) opp_gate2

/-- GRU parameters (`layers.h` via the spec data model, section 3). -/
structure GRU where
  wUpdate : List (List Int)
  uUpdate : List (List Int)
  bUpdate : List Int
  wReset : List (List Int)
  uReset : List (List Int)
  bReset : List Int
  wCandidate : List (List Int)
  uCandidate : List (List Int)
  bCandidate : List Int

/-- Fused GRU parameters (`layers.h` via the spec data model, section 3). -/
structure TFGRU where
  wGates : List (List Int)
  bGates : List Int
  wCandidates : List (List Int)
  bCandidates : List Int

/-- From `layers.c`: `apply_gru(result, input, state, gru, precision)`, the
unfused GRU cell. -/
def apply_gru (input state : List Int) (gru : GRU) (precision : Nat) : List Int :=
  let inputUpdate := matVec gru.uUpdate input precision
  let update0 := matVec gru.wUpdate state precision
  let update1 := matrix_add update0 inputUpdate
  let update2 := matrix_add update1 gru.bUpdate
  let update := apply_elementwise update2 fp_sigmoid precision
  let inputReset := matVec gru.uReset input precision
  let reset0 := matVec gru.wReset state precision
  let reset1 := matrix_add reset0 inputReset
  let reset2 := matrix_add reset1 gru.bReset
  let reset3 := apply_elementwise reset2 fp_sigmoid precision
  let reset := matrix_hadamard state reset3 precision
  let inputCandidate := matVec gru.uCandidate input precision
  let candidate0 := matVec gru.wCandidate reset precision
  let candidate1 := matrix_add candidate0 inputCandidate
  let candidate2 := matrix_add candidate1 gru.bCandidate
  let candidate := apply_elementwise candidate2 fp_tanh precision
  apply_gate update state candidate precision

/-- The two split copy loops of `apply_tf_gru` (`layers.c`):
`for (; index < stop; index++) dst->data[index - offset] = src->data[index];`
with `fuel = stop - index` iterations remaining. -/
def copyLoopFuel : Nat → List Int → List Int → Nat → Nat → List Int
  | 0, dst, _, _, _ => dst
  | fuel + 1, dst, src, idx, off =>
    copyLoopFuel fuel (dst.set (idx - off) (src.getD idx 0)) src (idx + 1) off

/-- The C split loop from `index = idx` while `index < stop`. -/
def copyLoop (dst src : List Int) (idx stop off : Nat) : List Int :=
  copyLoopFuel (stop - idx) dst src idx off

/-- From `layers.c`: `apply_tf_gru(result, input, state, gru, precision)`,
the fused (TensorFlow-style) GRU cell. The gate block is allocated with
`state->numRows * 2` rows; the first split loop runs to `state->numRows`,
the second from there to `gates->numRows`. -/
def apply_tf_gru (input state : List Int) (gru : TFGRU) (precision : Nat) : List Int :=
  let hidden := state.length
  let stacked := stack input state
  let gates0 := matVec gru.wGates stacked precision
  let gates1 := matrix_add gates0 gru.bGates
  let gates := apply_elementwise gates1 fp_sigmoid precision
  let reset0 := copyLoop (zeroVec hidden) gates 0 hidden 0
  let update := copyLoop (zeroVec hidden) gates hidden (2 * hidden) hidden
  let reset := matrix_hadamard state reset0 precision
  let stacked2 := stack input reset
  let candidate0 := matVec gru.wCandidates stacked2 precision
  let candidate1 := matrix_add candidate0 gru.bCandidates
  let candidate := apply_elementwise candidate1 fp_tanh precision
  apply_gate update state candidate precision

/-- Modelled from the spec: the `CellType` tag (`layers.h` is not in the
sources). The spec (sections 4.7, 7) dispatches on `GRUCell` and `TFGRUCell`
and treats every other tag value as unrecognized; `UnknownCell` stands for
any such other tag. -/
inductive CellType where
  | GRUCell : CellType
  | TFGRUCell : CellType
  | UnknownCell : CellType
deriving DecidableEq

/-- The `for` loop of `rnn` (`layers.c`), dispatching on the tag each step;
`fuel = seqLength - i`. The `void *cell` pointer is modelled by passing both
possible interpretations of the cell memory. -/
def rnn_loop (inputs : List (List Int)) (gcell : GRU) (tcell : TFGRU) (cellType : CellType)
    (precision : Nat) : Nat → Nat → List Int → Option (List Int)
  | 0, _, state => some state
  | fuel + 1, i, state =>
    let input := inputs.getD i []
    match cellType with
    | CellType.GRUCell =>
      rnn_loop inputs gcell tcell cellType precision fuel (i + 1)
        (apply_gru input state gcell precision)
    | CellType.TFGRUCell =>
      rnn_loop inputs gcell tcell cellType precision fuel (i + 1)
        (apply_tf_gru input state tcell precision)
    | CellType.UnknownCell => none

/-- From `layers.c`: `rnn(result, inputs, cell, cellType, seqLength,
precision)`: zero the state (`matrix_set(state, 0)`, shape from the result
buffer of `rows` rows), then iterate the cell; `NULL_PTR` is `none`. -/
def rnn (rows : Nat) (inputs : List (List Int)) (gcell : GRU) (tcell : TFGRU)
    (cellType : CellType) (seqLength : Nat) (precision : Nat) : Option (List Int) :=
  rnn_loop inputs gcell tcell cellType precision seqLength 0 (zeroVec rows)

-- Spec-side definitions, written from the words of the spec, for the refinement
-- claims that compare the source embedding against the specified behavior.

/-- Written from the spec (sections 4.4-4.6): the gated blend
`h = first (*) gate + second (*) (1 - gate)` with the complement taken
directly as `1 - g` per entry. To be compared with `apply_gate`, which
builds the complement via `scalar_add(scalar_product(g, -1), 1)`. -/
def gate_blend (gate first second : List Int) (precision : Nat) : List Int :=
  match gate, first, second with
  | g :: gt, f :: ft, s :: st =>
    fp_add (fp_mul f g precision)
      (fp_mul s (fp_sub (int_to_fp 1 precision) g) precision)
      :: gate_blend gt ft st precision
  | _, _, _ => []

/-- Written from the spec (section 4.6): the fused GRU cell as specified:
`gates = sigmoid(Wgates . vstack(x, h) + bgates)`; rows `[0, hidden)` of
`gates` are the reset gate and rows `[hidden, 2*hidden)` the update gate
(`take`/`drop`); `r_applied = r (*) h_prev`; candidate from
`vstack(x, r_applied)`; new state the gated blend of previous state and
candidate by the update gate. To be compared with `apply_tf_gru`. -/
def tf_gru_spec (input state : List Int) (gru : TFGRU) (precision : Nat) : List Int :=
  let hidden := state.length
  let gates := apply_elementwise
    (matrix_add (matVec gru.wGates (stack input state) precision) gru.bGates)
    fp_sigmoid precision
  let r := gates.take hidden
  let z := gates.drop hidden
  let rApplied := matrix_hadamard state r precision
  let candidate := apply_elementwise
    (matrix_add (matVec gru.wCandidates (stack input rApplied) precision) gru.bCandidates)
    fp_tanh precision
  gate_blend z state candidate precision

/-- Written from the spec (section 4.2): the sigmoid positive branch
`(tanh(x/2) + 1) / 2` spelled in the fixed-point operations of the source; the
negative branch is its complement `1 - (tanh(|x|/2) + 1)/2`. To be compared
with both branches of `fp_sigmoid`. -/
def sigmoid_pos_spec (x : Int) (precision : Nat) : Int :=
  fp_mul (fp_add (fp_tanh (fp_mul x (toInt16 (2 ^ (precision - 1))) precision) precision)
    (toInt16 (2 ^ precision))) (toInt16 (2 ^ (precision - 1))) precision

-- Basic facts about the wrap function.

theorem toInt16_eq_self {n : Int} (h1 : -32768 ≤ n) (h2 : n ≤ 32767) :
    toInt16 n = n := by
  unfold toInt16; omega

theorem toInt16_lb (n : Int) : -32768 ≤ toInt16 n := by
  unfold toInt16; omega

theorem toInt16_ub (n : Int) : toInt16 n ≤ 32767 := by
  unfold toInt16; omega

theorem toInt16_add_left (a b : Int) : toInt16 (toInt16 a + b) = toInt16 (a + b) := by
  unfold toInt16; omega

theorem toInt16_sub_right (a b : Int) : toInt16 (a - toInt16 b) = toInt16 (a - b) := by
  unfold toInt16; omega

theorem fp_add_eq (x y : Int) (h1 : -32768 ≤ x + y) (h2 : x + y ≤ 32767) :
    fp_add x y = x + y := toInt16_eq_self h1 h2


-- Claim C10 (safety): precision >= 3 as the unstated shift precondition.

/-- C10: `fp_tanh` computes shift amounts `precision - 3` and
`precision - 1` (and `fp_sigmoid` computes `precision` and `precision - 1`),
so `precision >= 3` makes all shift amounts non-negative, while for
`precision < 3` `fp_tanh` shifts by a negative amount (undefined behavior
in C). -/
theorem claim10_shift_amount_precondition :
    (∀ p : Int, 3 ≤ p →
      (∀ s ∈ fp_tanh_shift_amounts p, 0 ≤ s) ∧
      (∀ s ∈ fp_sigmoid_shift_amounts p, 0 ≤ s)) ∧
    (∀ p : Int, p < 3 → ∃ s ∈ fp_tanh_shift_amounts p, s < 0) := by
  refine ⟨fun p hp => ⟨fun s hs => ?_, fun s hs => ?_⟩, fun p hp => ⟨p - 3, ?_, by omega⟩⟩
  · simp only [fp_tanh_shift_amounts, List.mem_cons, List.mem_singleton] at hs
    rcases hs with h | h | h <;> simp_all
    all_goals omega
  · simp only [fp_sigmoid_shift_amounts, List.mem_cons, List.mem_singleton] at hs
    rcases hs with h | h | h <;> simp_all
    all_goals omega
  · simp [fp_tanh_shift_amounts]

/-- Witness for C10 at `precision = 5` and `precision = 2`. -/
theorem claim10_witness :
    (∀ s ∈ fp_tanh_shift_amounts 5, 0 ≤ s) ∧ ∃ s ∈ fp_tanh_shift_amounts 2, s < 0 :=
  ⟨(claim10_shift_amount_precondition.1 5 (by norm_num)).1,
    claim10_shift_amount_precondition.2 2 (by norm_num)⟩

-- Claim C6 (numerical): semantics of fp_mul / fp_div.

/-- C6: `fp_mul x y p` is the round-toward-zero quotient of the widened
product `x * y` by `2^p` (whenever that quotient is representable in 16
bits), `fp_div x y p` is the round-toward-zero quotient of `x * 2^p` by `y`
(whenever representable), division is undefined exactly when `y = 0`
(`fp_div_checked`), and multiplying by the fixed-point one `2^p` is the
identity on 16-bit values. -/
theorem claim6_mul_div_semantics :
    (∀ (x y : Int) (p : Nat), -32768 ≤ (x * y).tdiv (2 ^ p) →
      (x * y).tdiv (2 ^ p) ≤ 32767 → fp_mul x y p = (x * y).tdiv (2 ^ p)) ∧
    (∀ (x y : Int) (p : Nat), y ≠ 0 → -32768 ≤ (x * 2 ^ p).tdiv y →
      (x * 2 ^ p).tdiv y ≤ 32767 → fp_div x y p = (x * 2 ^ p).tdiv y) ∧
    (∀ (x y : Int) (p : Nat), fp_div_checked x y p = none ↔ y = 0) ∧
    (∀ (x : Int) (p : Nat), -32768 ≤ x → x ≤ 32767 → p ≤ 14 →
      fp_mul x (2 ^ p) p = x) := by
  refine ⟨fun x y p h1 h2 => toInt16_eq_self h1 h2,
    fun x y p _ h1 h2 => toInt16_eq_self h1 h2,
    fun x y p => ?_, fun x p h1 h2 _ => ?_⟩
  · simp [fp_div_checked]
  · unfold fp_mul
    rw [Int.mul_tdiv_cancel x (by positivity)]
    exact toInt16_eq_self h1 h2

/-- Witness for C6 at concrete inputs. -/
theorem claim6_witness :
    fp_mul 100 96 5 = (100 * 96 : Int).tdiv (2 ^ 5) ∧
    fp_div 100 96 5 = (100 * 2 ^ 5 : Int).tdiv 96 ∧
    (fp_div_checked 100 0 5 = none ↔ (0 : Int) = 0) ∧
    fp_mul 100 (2 ^ 5) 5 = 100 :=
  ⟨claim6_mul_div_semantics.1 100 96 5 (by decide) (by decide),
    claim6_mul_div_semantics.2.1 100 96 5 (by decide) (by decide) (by decide),
    claim6_mul_div_semantics.2.2.1 100 0 5,
    claim6_mul_div_semantics.2.2.2 100 5 (by decide) (by decide) (by omega)⟩

-- Claim C1 (error handling): unrecognized cell type in the sequence driver.

/-- C1 counterexample: with `seqLength = 0` the driver loop body (and with it
the cell-type dispatch) never runs, so `rnn` returns the zero-initialized
state, not the null sentinel, even for an unrecognized cell type. -/
theorem claim1_counterexample :
    rnn 1 [] ⟨[], [], [], [], [], [], [], [], []⟩ ⟨[], [], [], []⟩
      CellType.UnknownCell 0 5 = some [0] ∧ some [0] ≠ (none : Option (List Int)) :=
  ⟨rfl, by decide⟩

/-- C1 amended: for every sequence length of at least one step, an
unrecognized cell type makes `rnn` return the null sentinel on the first
iteration, producing no output at all. -/
theorem claim1_unknown_cell_aborts (rows : Nat) (inputs : List (List Int))
    (gcell : GRU) (tcell : TFGRU) (ct : CellType) (seqLength precision : Nat)
    (hct1 : ct ≠ CellType.GRUCell) (hct2 : ct ≠ CellType.TFGRUCell)
    (hlen : 1 ≤ seqLength) :
    rnn rows inputs gcell tcell ct seqLength precision = none := by
  cases ct with
  | GRUCell => exact absurd rfl hct1
  | TFGRUCell => exact absurd rfl hct2
  | UnknownCell =>
    obtain ⟨k, rfl⟩ : ∃ k, seqLength = k + 1 := ⟨seqLength - 1, by omega⟩
    rfl

/-- Witness for C1 at a concrete one-step sequence. -/
theorem claim1_witness :
    rnn 1 [[7]] ⟨[], [], [], [], [], [], [], [], []⟩ ⟨[], [], [], []⟩
      CellType.UnknownCell 1 5 = none :=
  claim1_unknown_cell_aborts 1 [[7]] ⟨[], [], [], [], [], [], [], [], []⟩
    ⟨[], [], [], []⟩ CellType.UnknownCell 1 5 (by decide) (by decide) (by omega)

-- Claim C3 (functional correctness): the power-series exponential.

/-- C3: the series loop stops at the iteration cap (`fuel = 0`, i.e.
`i = POWER_SERIES_TERMS`) or as soon as the running sum stops changing
(`prev_result = result`); each iteration accumulates `acc := x * acc`,
`fact := fact * (i * 2^p)`, `term := acc / fact` with the fixed-point
`fp_mul`/`fp_div`; a negative argument runs the series on the `fp_neg`
mirror and returns `fp_div(int_to_fp(1, p), result, p)`; and
`fp_exp 0 p = 2^p` for every representable precision. -/
theorem claim3_exp_power_series :
    (∀ (x : Int) (p : Nat) (i acc fact result prev : Int),
      fp_exp_loop x p 0 i acc fact result prev = result) ∧
    (∀ (x : Int) (p fuel : Nat) (i acc fact result : Int),
      fp_exp_loop x p fuel i acc fact result result = result) ∧
    (∀ (x : Int) (p fuel : Nat) (i acc fact result prev : Int), prev ≠ result →
      fp_exp_loop x p (fuel + 1) i acc fact result prev =
        fp_exp_loop x p fuel (i + 1) (fp_mul x acc p)
          (fp_mul fact (toInt16 (i * 2 ^ p)) p)
          (fp_add (fp_div (fp_mul x acc p)
            (fp_mul fact (toInt16 (i * 2 ^ p)) p) p) result) result) ∧
    (∀ (x : Int) (p : Nat), x < 0 →
      fp_exp x p = fp_div (int_to_fp 1 p)
        (fp_exp_loop (fp_neg x) p (POWER_SERIES_TERMS - 1) 1 (toInt16 (2 ^ p))
          (toInt16 (2 ^ p)) (toInt16 (2 ^ p)) 0) p) ∧
    (∀ p : Nat, p ≤ 14 → fp_exp 0 p = 2 ^ p) := by
  refine ⟨fun x p i acc fact result prev => rfl,
    fun x p fuel i acc fact result => ?_,
    fun x p fuel i acc fact result prev h => ?_,
    fun x p hx => ?_, fun p hp => ?_⟩
  · cases fuel <;> simp [fp_exp_loop]
  · simp [fp_exp_loop, h]
  · simp [fp_exp, hx]
  · interval_cases p <;> decide

/-- Witness for C3: the negative branch at `x = -32`, one unfolding step of
the loop, and `fp_exp 0 5 = 32`. -/
theorem claim3_witness :
    (fp_exp_loop (-32) 5 3 1 32 32 32 0 =
      fp_exp_loop (-32) 5 2 2 (fp_mul (-32) 32 5)
        (fp_mul 32 (toInt16 (1 * 2 ^ 5)) 5)
        (fp_add (fp_div (fp_mul (-32) 32 5)
          (fp_mul 32 (toInt16 (1 * 2 ^ 5)) 5) 5) 32) 32) ∧
    (fp_exp (-32) 5 = fp_div (int_to_fp 1 5)
      (fp_exp_loop (fp_neg (-32)) 5 (POWER_SERIES_TERMS - 1) 1 (toInt16 (2 ^ 5))
        (toInt16 (2 ^ 5)) (toInt16 (2 ^ 5)) 0) 5) ∧
    fp_exp 0 5 = 2 ^ 5 :=
  ⟨claim3_exp_power_series.2.2.1 (-32) 5 2 1 32 32 32 0 (by decide),
    claim3_exp_power_series.2.2.2.1 (-32) 5 (by decide),
    claim3_exp_power_series.2.2.2.2 5 (by omega)⟩

-- Helper lemmas for the tanh / sigmoid claims.

theorem pow2_pos (p : Nat) : (0:Int) < 2 ^ p := pow_pos (by norm_num) p

theorem pow2_le_of_le {p n : Nat} (h : p ≤ n) : (2:Int) ^ p ≤ 2 ^ n :=
  pow_le_pow_right₀ (by norm_num) h

theorem int_to_fp_one {p : Nat} (hp : p ≤ 14) : int_to_fp 1 p = 2 ^ p := by
  unfold int_to_fp
  have h1 := pow2_pos p
  have h2 : (2:Int) ^ p ≤ 16384 := le_trans (pow2_le_of_le hp) (by norm_num)
  rw [one_mul]
  exact toInt16_eq_self (by omega) (by omega)

theorem fp_neg_eq {x : Int} (h1 : -32767 ≤ x) (h2 : x ≤ 32767) : fp_neg x = -x := by
  unfold fp_neg
  exact toInt16_eq_self (by omega) (by omega)

/-- The clip at the end of `fp_tanh` keeps every output inside the
fixed-point interval `[-2^p, 2^p]`, whatever the rational core produced. -/
theorem fp_tanh_range (x : Int) (p : Nat) (_hp3 : 3 ≤ p) (hp14 : p ≤ 14) :
    -(2 ^ p) ≤ fp_tanh x p ∧ fp_tanh x p ≤ 2 ^ p := by
  have h1 := pow2_pos p
  have h2 : (2:Int) ^ p ≤ 16384 := le_trans (pow2_le_of_le hp14) (by norm_num)
  have hone : int_to_fp 1 p = 2 ^ p := int_to_fp_one hp14
  have hnegone : fp_neg ((2:Int) ^ p) = -(2 ^ p) := fp_neg_eq (by omega) (by omega)
  unfold fp_tanh
  simp only [hone, hnegone]
  split_ifs <;> omega

/-- In the regime where the fixed-point squaring does not overflow
(`x * x < 32768 * 2^p`), the pre-clip rational core is monotone-bounded:
it lies in `[0, x]` for `0 ≤ x ≤ 32767`. -/
theorem fp_tanh_core_bounds (x : Int) (p : Nat) (hx0 : 0 ≤ x) (hx1 : x ≤ 32767)
    (hp3 : 3 ≤ p) (hp14 : p ≤ 14) (hov : x * x < 32768 * 2 ^ p) :
    0 ≤ fp_tanh_core x p ∧ fp_tanh_core x p ≤ x := by
  have hppos := pow2_pos p
  have hple : (2:Int) ^ p ≤ 16384 := le_trans (pow2_le_of_le hp14) (by norm_num)
  have hp3pos := pow2_pos (p - 3)
  have hp3le : (2:Int) ^ (p - 3) ≤ 2048 :=
    le_trans (pow2_le_of_le (show p - 3 ≤ 11 by omega)) (by norm_num)
  have hp1pos := pow2_pos (p - 1)
  have hp1le : (2:Int) ^ (p - 1) ≤ 8192 :=
    le_trans (pow2_le_of_le (show p - 1 ≤ 13 by omega)) (by norm_num)
  have hsplit8 : (2:Int) ^ p = 2 ^ (p - 3) * 8 := by
    have h2 : p - 3 + 3 = p := by omega
    calc (2:Int) ^ p = 2 ^ (p - 3 + 3) := by rw [h2]
    _ = 2 ^ (p - 3) * 2 ^ 3 := pow_add 2 _ _
    _ = 2 ^ (p - 3) * 8 := by norm_num
  have hsplit2 : (2:Int) ^ p = 2 ^ (p - 1) * 2 := by
    have h2 : p - 1 + 1 = p := by omega
    calc (2:Int) ^ p = 2 ^ (p - 1 + 1) := by rw [h2]
    _ = 2 ^ (p - 1) * 2 := pow_succ 2 _
  -- the raw (pre-wrap) quotient of the squaring
  set q0 : Int := (x * x) / 2 ^ p with hq0
  have hq0nn : 0 ≤ q0 := Int.ediv_nonneg (mul_nonneg hx0 hx0) (le_of_lt hppos)
  have hq0ub : q0 < 32768 := (Int.ediv_lt_iff_lt_mul hppos).mpr (by linarith)
  have hxsq : fp_mul x x p = q0 := by
    unfold fp_mul
    rw [Int.tdiv_eq_ediv (mul_nonneg hx0 hx0) (le_of_lt hppos), ← hq0]
    exact toInt16_eq_self (by omega) (by omega)
  -- one_eighth, one_half, one are exact
  have he : toInt16 ((2:Int) ^ (p - 3)) = 2 ^ (p - 3) := toInt16_eq_self (by omega) (by omega)
  have hh : toInt16 ((2:Int) ^ (p - 1)) = 2 ^ (p - 1) := toInt16_eq_self (by omega) (by omega)
  have hone : int_to_fp 1 p = 2 ^ p := int_to_fp_one hp14
  -- fp_mul x_squared one_eighth p = q0 / 8
  have hq8nn : 0 ≤ q0 / 8 := Int.ediv_nonneg hq0nn (by norm_num)
  have hq8ub : q0 / 8 < 4096 :=
    (Int.ediv_lt_iff_lt_mul (show (0:Int) < 8 by norm_num)).mpr (by omega)
  have hmul8 : fp_mul q0 (2 ^ (p - 3)) p = q0 / 8 := by
    unfold fp_mul
    rw [Int.tdiv_eq_ediv (mul_nonneg hq0nn (le_of_lt hp3pos)) (le_of_lt hppos), hsplit8,
      mul_comm q0 ((2:Int) ^ (p - 3)), Int.mul_ediv_mul_of_pos _ _ hp3pos]
    exact toInt16_eq_self (by omega) (by omega)
  -- fp_mul x_squared one_half p = q0 / 2
  have hq2nn : 0 ≤ q0 / 2 := Int.ediv_nonneg hq0nn (by norm_num)
  have hq2ub : q0 / 2 < 16384 :=
    (Int.ediv_lt_iff_lt_mul (show (0:Int) < 2 by norm_num)).mpr (by omega)
  have hmul2 : fp_mul q0 (2 ^ (p - 1)) p = q0 / 2 := by
    unfold fp_mul
    rw [Int.tdiv_eq_ediv (mul_nonneg hq0nn (le_of_lt hp1pos)) (le_of_lt hppos), hsplit2,
      mul_comm q0 ((2:Int) ^ (p - 1)), Int.mul_ediv_mul_of_pos _ _ hp1pos]
    exact toInt16_eq_self (by omega) (by omega)
  -- numerator and denominator
  have hnum : fp_add (2 ^ p) (q0 / 8) = 2 ^ p + q0 / 8 := by
    unfold fp_add
    exact toInt16_eq_self (by omega) (by omega)
  have hden : fp_add (2 ^ p) (q0 / 2) = 2 ^ p + q0 / 2 := by
    unfold fp_add
    exact toInt16_eq_self (by omega) (by omega)
  have hnd : q0 / 8 ≤ q0 / 2 := by
    rw [Int.le_ediv_iff_mul_le (by norm_num : (0:Int) < 2)]
    have h1 : q0 / 8 * 2 ≤ q0 / 8 * 8 :=
      mul_le_mul_of_nonneg_left (by norm_num) hq8nn
    have h2 : q0 / 8 * 8 ≤ q0 := Int.ediv_mul_le q0 (by norm_num)
    omega
  have hdpos : (0:Int) < 2 ^ p + q0 / 2 := by omega
  -- the rational factor
  set rat : Int := ((2 ^ p + q0 / 8) * 2 ^ p) / (2 ^ p + q0 / 2) with hrat
  have hratnn : 0 ≤ rat :=
    Int.ediv_nonneg (mul_nonneg (by omega) (le_of_lt hppos)) (le_of_lt hdpos)
  have hratub : rat ≤ 2 ^ p := by
    have h1 : (2 ^ p + q0 / 8) * 2 ^ p ≤ (2 ^ p + q0 / 2) * 2 ^ p :=
      mul_le_mul_of_nonneg_right (by omega) (le_of_lt hppos)
    calc rat ≤ ((2 ^ p + q0 / 2) * 2 ^ p) / (2 ^ p + q0 / 2) :=
          Int.ediv_le_ediv hdpos h1
    _ = 2 ^ p := Int.mul_ediv_cancel_left _ (by omega)
  have hdiv : fp_div (2 ^ p + q0 / 8) (2 ^ p + q0 / 2) p = rat := by
    unfold fp_div
    rw [Int.tdiv_eq_ediv (mul_nonneg (by omega) (le_of_lt hppos)) (le_of_lt hdpos), ← hrat]
    exact toInt16_eq_self (by omega) (by omega)
  -- the final product
  have hr : fp_mul x rat p = (x * rat) / 2 ^ p := by
    unfold fp_mul
    rw [Int.tdiv_eq_ediv (mul_nonneg hx0 hratnn) (le_of_lt hppos)]
    refine toInt16_eq_self ?_ ?_
    · have := Int.ediv_nonneg (mul_nonneg hx0 hratnn) (le_of_lt hppos)
      omega
    · have h1 : x * rat ≤ x * 2 ^ p := mul_le_mul_of_nonneg_left hratub hx0
      have h2 : (x * rat) / 2 ^ p ≤ (x * 2 ^ p) / 2 ^ p := Int.ediv_le_ediv hppos h1
      rw [Int.mul_ediv_cancel x (by omega)] at h2
      omega
  have hfin1 : 0 ≤ (x * rat) / 2 ^ p := Int.ediv_nonneg (mul_nonneg hx0 hratnn) (le_of_lt hppos)
  have hfin2 : (x * rat) / 2 ^ p ≤ x := by
    have h1 : x * rat ≤ x * 2 ^ p := mul_le_mul_of_nonneg_left hratub hx0
    have h2 : (x * rat) / 2 ^ p ≤ (x * 2 ^ p) / 2 ^ p := Int.ediv_le_ediv hppos h1
    rw [Int.mul_ediv_cancel x (by omega)] at h2
    exact h2
  unfold fp_tanh_core
  simp only [he, hh, hone, hxsq, hmul8, hmul2, hnum, hden, hdiv, hr]
  exact ⟨hfin1, hfin2⟩

theorem fp_tanh_core_int16 (x : Int) (p : Nat) :
    -32768 ≤ fp_tanh_core x p ∧ fp_tanh_core x p ≤ 32767 :=
  ⟨toInt16_lb _, toInt16_ub _⟩

theorem clip_neg (c : Int) (p : Nat) (hp14 : p ≤ 14)
    (hc1 : -32767 ≤ c) (hc2 : c ≤ 32767) :
    (if -c > (2:Int) ^ p then (2:Int) ^ p
      else if -c < -(2:Int) ^ p then -(2:Int) ^ p else -c)
    = fp_neg (if c > (2:Int) ^ p then (2:Int) ^ p
      else if c < -(2:Int) ^ p then -(2:Int) ^ p else c) := by
  have hppos := pow2_pos p
  have hple : (2:Int) ^ p ≤ 16384 := le_trans (pow2_le_of_le hp14) (by norm_num)
  have hfp : ∀ v : Int, -32767 ≤ v → v ≤ 32767 → fp_neg v = -v := fun v h1 h2 =>
    fp_neg_eq h1 h2
  split_ifs <;> rw [hfp _ (by omega) (by omega)] <;> omega

theorem fp_tanh_zero (p : Nat) (hp3 : 3 ≤ p) (hp14 : p ≤ 14) : fp_tanh 0 p = 0 := by
  interval_cases p <;> decide

/-- Conditional odd symmetry: provided the mirrored pre-clip core value is
not the unnegatable `-32768`, tanh of the `fp_neg` mirror is the `fp_neg`
of tanh. -/
theorem fp_tanh_odd (x : Int) (p : Nat) (hx1 : -32768 < x) (hx2 : x ≤ 32767)
    (hp3 : 3 ≤ p) (hp14 : p ≤ 14)
    (hcore : fp_tanh_core (if x < 0 then fp_neg x else x) p ≠ -32768) :
    fp_tanh (fp_neg x) p = fp_neg (fp_tanh x p) := by
  have hppos := pow2_pos p
  have hple : (2:Int) ^ p ≤ 16384 := le_trans (pow2_le_of_le hp14) (by norm_num)
  have hone : int_to_fp 1 p = 2 ^ p := int_to_fp_one hp14
  have hnegone : fp_neg ((2:Int) ^ p) = -(2 ^ p) := fp_neg_eq (by omega) (by omega)
  rcases lt_trichotomy x 0 with hneg | rfl | hpos
  · -- x < 0 : the mirror is fp_neg x = -x > 0
    have hx0 : x < 0 := hneg
    have hnegx : fp_neg x = -x := fp_neg_eq (by omega) (by omega)
    rw [if_pos hx0, hnegx] at hcore
    have hcb := fp_tanh_core_int16 (-x) p
    set c := fp_tanh_core (-x) p with hc
    have hnegc : fp_neg c = -c := fp_neg_eq (by omega) (by omega)
    have hnx0 : ¬ ((-x) < 0) := by omega
    rw [hnegx]
    simp only [fp_tanh, if_neg hnx0, if_pos hx0]
    rw [hnegx, ← hc]
    simp only [hone, hnegone, hnegc]
    have hcl := clip_neg (-c) p hp14 (by omega) (by omega)
    rw [neg_neg] at hcl
    exact hcl
  · -- x = 0
    have hz : fp_neg (0:Int) = 0 := by decide
    rw [hz, fp_tanh_zero p hp3 hp14, hz]
  · -- x > 0
    have hx0 : ¬ (x < 0) := by omega
    have hnegx : fp_neg x = -x := fp_neg_eq (by omega) (by omega)
    rw [if_neg hx0] at hcore
    have hcb := fp_tanh_core_int16 x p
    set c := fp_tanh_core x p with hc
    have hnegc : fp_neg c = -c := fp_neg_eq (by omega) (by omega)
    have hnx0 : (-x) < 0 := by omega
    have hmirror : fp_neg (-x) = x := by
      unfold fp_neg
      rw [neg_neg]
      exact toInt16_eq_self (by omega) (by omega)
    rw [hnegx]
    simp only [fp_tanh, if_pos hnx0, if_neg hx0]
    rw [hmirror, ← hc]
    simp only [hone, hnegone, hnegc]
    exact clip_neg c p hp14 (by omega) (by omega)

theorem fp_sigmoid_pos_branch (x : Int) (p : Nat) (hx : 0 ≤ x) :
    fp_sigmoid x p = sigmoid_pos_spec x p := by
  have hx0 : ¬ (x < 0) := by omega
  simp only [fp_sigmoid, sigmoid_pos_spec, if_neg hx0]

theorem fp_sigmoid_neg_branch (x : Int) (p : Nat) (hx : x < 0) :
    fp_sigmoid x p = toInt16 (toInt16 (2 ^ p) - sigmoid_pos_spec (fp_neg x) p) := by
  simp only [fp_sigmoid, sigmoid_pos_spec, if_pos hx]

/-- For precisions up to 13 the positive-branch sigmoid value lies in
`[0, 2^p]` for every argument, because the clipped tanh lies in
`[-2^p, 2^p]` and no later step can wrap. -/
theorem sigmoid_pos_spec_range (z : Int) (p : Nat) (hp3 : 3 ≤ p) (hp13 : p ≤ 13) :
    0 ≤ sigmoid_pos_spec z p ∧ sigmoid_pos_spec z p ≤ 2 ^ p := by
  have hppos := pow2_pos p
  have hple : (2:Int) ^ p ≤ 8192 := le_trans (pow2_le_of_le hp13) (by norm_num)
  have hp1pos := pow2_pos (p - 1)
  have hp1le : (2:Int) ^ (p - 1) ≤ 4096 :=
    le_trans (pow2_le_of_le (show p - 1 ≤ 12 by omega)) (by norm_num)
  have hsplit2 : (2:Int) ^ p = 2 ^ (p - 1) * 2 := by
    have h2 : p - 1 + 1 = p := by omega
    calc (2:Int) ^ p = 2 ^ (p - 1 + 1) := by rw [h2]
    _ = 2 ^ (p - 1) * 2 := pow_succ 2 _
  have hone16 : toInt16 ((2:Int) ^ p) = 2 ^ p := toInt16_eq_self (by omega) (by omega)
  have hhalf16 : toInt16 ((2:Int) ^ (p - 1)) = 2 ^ (p - 1) := toInt16_eq_self (by omega) (by omega)
  have htv := fp_tanh_range (fp_mul z (toInt16 (2 ^ (p - 1))) p) p hp3 (by omega)
  unfold sigmoid_pos_spec
  set tv := fp_tanh (fp_mul z (toInt16 (2 ^ (p - 1))) p) p with htvdef
  have hu : fp_add tv (toInt16 (2 ^ p)) = tv + 2 ^ p := by
    rw [hone16]
    unfold fp_add
    exact toInt16_eq_self (by omega) (by omega)
  rw [hu, hhalf16]
  have huq : ((tv + 2 ^ p) * 2 ^ (p - 1)).tdiv (2 ^ p) = (tv + 2 ^ p) / 2 := by
    rw [Int.tdiv_eq_ediv (mul_nonneg (by omega) (le_of_lt hp1pos)) (le_of_lt hppos),
      mul_comm (tv + 2 ^ p) ((2:Int) ^ (p - 1))]
    nth_rewrite 2 [hsplit2]
    exact Int.mul_ediv_mul_of_pos _ _ hp1pos
  have hq0 : 0 ≤ (tv + 2 ^ p) / 2 := Int.ediv_nonneg (by omega) (by norm_num)
  have hq1 : (tv + 2 ^ p) / 2 ≤ 2 ^ p := by
    have h1 : (tv + 2 ^ p) ≤ 2 ^ p * 2 := by omega
    have h2 : (tv + 2 ^ p) / 2 ≤ (2 ^ p * 2) / 2 :=
      Int.ediv_le_ediv (by norm_num) h1
    rw [Int.mul_ediv_cancel _ (by norm_num : (2:Int) ≠ 0)] at h2
    exact h2
  unfold fp_mul
  rw [huq]
  rw [toInt16_eq_self (by omega) (by omega)]
  exact ⟨hq0, hq1⟩

/-- At precision 14 the positive-branch sigmoid value lies in `[0, 2^14]`
for every non-negative 16-bit argument: the halved tanh argument is at most
16383, so the rational core stays in the overflow-free regime and the
`tanh + 1` sum cannot wrap. -/
theorem sigmoid_pos_spec_range14 (z : Int) (hz0 : 0 ≤ z) (hz1 : z ≤ 32767) :
    0 ≤ sigmoid_pos_spec z 14 ∧ sigmoid_pos_spec z 14 ≤ 2 ^ 14 := by
  have hhalf : toInt16 ((2:Int) ^ (14 - 1)) = 8192 := by decide
  have hone : toInt16 ((2:Int) ^ 14) = 16384 := by decide
  have ht : fp_mul z (toInt16 ((2:Int) ^ (14 - 1))) 14 = z / 2 := by
    rw [hhalf]
    unfold fp_mul
    have hraw : (z * 8192).tdiv (2 ^ 14) = z / 2 := by
      rw [Int.tdiv_eq_ediv (mul_nonneg hz0 (by norm_num)) (by norm_num),
        mul_comm z (8192:Int), show ((2:Int) ^ 14) = 8192 * 2 by norm_num,
        Int.mul_ediv_mul_of_pos _ _ (by norm_num : (0:Int) < 8192)]
    rw [hraw]
    refine toInt16_eq_self ?_ ?_
    · have := Int.ediv_nonneg hz0 (by norm_num : (0:Int) ≤ 2)
      omega
    · have h1 : z / 2 ≤ 32767 / 2 := Int.ediv_le_ediv (by norm_num) hz1
      omega
  have ht0 : 0 ≤ z / 2 := Int.ediv_nonneg hz0 (by norm_num)
  have ht1 : z / 2 ≤ 16383 := by
    have h1 : z / 2 ≤ 32767 / 2 := Int.ediv_le_ediv (by norm_num) hz1
    omega
  have hcore := fp_tanh_core_bounds (z / 2) 14 ht0 (by omega) (by omega) (by omega)
    (by nlinarith)
  have htv : fp_tanh (z / 2) 14 = fp_tanh_core (z / 2) 14 := by
    have hnn : ¬ ((z / 2) < 0) := by omega
    simp only [fp_tanh, if_neg hnn]
    have ho : int_to_fp 1 14 = 16384 := by decide
    rw [ho]
    have hn : fp_neg (16384:Int) = -16384 := by decide
    rw [hn, if_neg (by omega), if_neg (by omega)]
  unfold sigmoid_pos_spec
  rw [ht, htv, hone, hhalf]
  set c := fp_tanh_core (z / 2) 14 with hc
  have hu : fp_add c 16384 = c + 16384 := by
    unfold fp_add
    exact toInt16_eq_self (by omega) (by omega)
  rw [hu]
  unfold fp_mul
  have hraw : ((c + 16384) * 8192).tdiv (2 ^ 14) = (c + 16384) / 2 := by
    rw [Int.tdiv_eq_ediv (mul_nonneg (by omega) (by norm_num)) (by norm_num),
      mul_comm (c + 16384) (8192:Int), show ((2:Int) ^ 14) = 8192 * 2 by norm_num,
      Int.mul_ediv_mul_of_pos _ _ (by norm_num : (0:Int) < 8192)]
  rw [hraw]
  have hq0 : 0 ≤ (c + 16384) / 2 := Int.ediv_nonneg (by omega) (by norm_num)
  have hq1 : (c + 16384) / 2 ≤ 16383 := by
    have h1 : (c + 16384) / 2 ≤ 32767 / 2 := Int.ediv_le_ediv (by norm_num) (by omega)
    omega
  rw [toInt16_eq_self (by omega) (by omega)]
  constructor
  · exact hq0
  · norm_num
    omega

theorem sigmoid_pos_spec_bounds (z : Int) (p : Nat) (hz0 : 0 ≤ z) (hz1 : z ≤ 32767)
    (hp3 : 3 ≤ p) (hp14 : p ≤ 14) :
    0 ≤ sigmoid_pos_spec z p ∧ sigmoid_pos_spec z p ≤ 2 ^ p := by
  rcases Nat.lt_or_ge p 14 with h | h
  · exact sigmoid_pos_spec_range z p hp3 (by omega)
  · have hp : p = 14 := by omega
    subst hp
    exact sigmoid_pos_spec_range14 z hz0 hz1

theorem fp_sigmoid_complement (x : Int) (p : Nat) (hx1 : -32768 < x) (hx2 : x ≤ 32767)
    (hp3 : 3 ≤ p) (hp14 : p ≤ 14) :
    fp_sigmoid x p + fp_sigmoid (fp_neg x) p = 2 ^ p := by
  have hppos := pow2_pos p
  have hple : (2:Int) ^ p ≤ 16384 := le_trans (pow2_le_of_le hp14) (by norm_num)
  have hone16 : toInt16 ((2:Int) ^ p) = 2 ^ p := toInt16_eq_self (by omega) (by omega)
  rcases lt_trichotomy x 0 with hneg | rfl | hpos
  · have hnegx : fp_neg x = -x := fp_neg_eq (by omega) (by omega)
    have hb := sigmoid_pos_spec_bounds (-x) p (by omega) (by omega) hp3 hp14
    have h1 : fp_sigmoid x p = toInt16 (toInt16 (2 ^ p) - sigmoid_pos_spec (fp_neg x) p) :=
      fp_sigmoid_neg_branch x p hneg
    rw [hnegx, hone16] at h1
    have h1e : fp_sigmoid x p = 2 ^ p - sigmoid_pos_spec (-x) p := by
      rw [h1]
      exact toInt16_eq_self (by omega) (by omega)
    have h2 : fp_sigmoid (fp_neg x) p = sigmoid_pos_spec (-x) p := by
      rw [hnegx]
      exact fp_sigmoid_pos_branch (-x) p (by omega)
    omega
  · interval_cases p <;> decide
  · have hnegx : fp_neg x = -x := fp_neg_eq (by omega) (by omega)
    have hb := sigmoid_pos_spec_bounds x p (by omega) (by omega) hp3 hp14
    have h1 : fp_sigmoid x p = sigmoid_pos_spec x p := fp_sigmoid_pos_branch x p (by omega)
    have hmirror : fp_neg (-x) = x := by
      unfold fp_neg
      rw [neg_neg]
      exact toInt16_eq_self (by omega) (by omega)
    have h2 : fp_sigmoid (fp_neg x) p = toInt16 (toInt16 (2 ^ p) - sigmoid_pos_spec (fp_neg (-x)) p) := by
      rw [hnegx]
      exact fp_sigmoid_neg_branch (-x) p (by omega)
    rw [hmirror, hone16] at h2
    have h2e : fp_sigmoid (fp_neg x) p = 2 ^ p - sigmoid_pos_spec x p := by
      rw [h2]
      exact toInt16_eq_self (by omega) (by omega)
    omega

-- Claim C5 (algebraic): tanh odd symmetry, zero, and range.

/-- C5 counterexample: at `x = -32768` (INT16_MIN) odd symmetry fails,
because `fp_neg (-32768) = -32768`: both `fp_tanh(-32768, 8)` and
`fp_tanh(fp_neg(-32768), 8)` evaluate to `-256`, yet the negation of the
former is `256`. -/
theorem claim5_counterexample :
    fp_tanh (fp_neg (-32768)) 8 = -256 ∧ fp_neg (fp_tanh (-32768) 8) = 256 := by decide

/-- C5 amended: `fp_tanh 0 p = 0`; the output always lies in
`[-2^p, 2^p]` (enforced by the clamp); and odd symmetry
`fp_tanh (fp_neg x) p = fp_neg (fp_tanh x p)` holds for every
`x > -32768` whose mirrored pre-clip core value is not the unnegatable
`-32768` - a condition guaranteed whenever the fixed-point squaring does
not overflow (`x * x < 32768 * 2^p`), as the last conjunct shows. All for
precisions `3 <= p <= 14` (shifts defined, fixed-point one representable). -/
theorem claim5_tanh_properties :
    (∀ p : Nat, 3 ≤ p → p ≤ 14 → fp_tanh 0 p = 0) ∧
    (∀ (x : Int) (p : Nat), 3 ≤ p → p ≤ 14 →
      -(2 ^ p) ≤ fp_tanh x p ∧ fp_tanh x p ≤ 2 ^ p) ∧
    (∀ (x : Int) (p : Nat), -32768 < x → x ≤ 32767 → 3 ≤ p → p ≤ 14 →
      fp_tanh_core (if x < 0 then fp_neg x else x) p ≠ -32768 →
      fp_tanh (fp_neg x) p = fp_neg (fp_tanh x p)) ∧
    (∀ (x : Int) (p : Nat), 0 ≤ x → x ≤ 32767 → 3 ≤ p → p ≤ 14 →
      x * x < 32768 * 2 ^ p → fp_tanh_core x p ≠ -32768) := by
  refine ⟨fun p h3 h14 => fp_tanh_zero p h3 h14,
    fun x p h3 h14 => fp_tanh_range x p h3 h14,
    fun x p h1 h2 h3 h4 h5 => fp_tanh_odd x p h1 h2 h3 h4 h5,
    fun x p h0 h1 h3 h14 hov => ?_⟩
  have := fp_tanh_core_bounds x p h0 h1 h3 h14 hov
  omega

/-- Witness for C5 at `x = 32`, `p = 5` (a repository test point). -/
theorem claim5_witness :
    fp_tanh (fp_neg 32) 5 = fp_neg (fp_tanh 32 5) ∧ fp_tanh 0 5 = 0 ∧
    fp_tanh_core 32 5 ≠ -32768 :=
  ⟨claim5_tanh_properties.2.2.1 32 5 (by decide) (by decide) (by omega) (by omega) (by decide),
    claim5_tanh_properties.1 5 (by omega) (by omega),
    claim5_tanh_properties.2.2.2 32 5 (by decide) (by decide) (by omega) (by omega) (by decide)⟩

-- Claim C4 (algebraic): sigmoid at zero, complement symmetry, branch shape.

/-- C4 counterexample: at `x = -32768` the complement identity fails
exactly (not merely by rounding): `fp_neg (-32768) = -32768`, so both calls
take the negative branch and the sum is `512 = 2 * 2^8`, not `2^8`. -/
theorem claim4_counterexample :
    fp_sigmoid (-32768) 8 + fp_sigmoid (fp_neg (-32768)) 8 = 512 ∧
    (512 : Int) ≠ 2 ^ 8 := by decide

/-- C4 amended: `fp_sigmoid 0 p = 2^(p-1)`; the complement identity
`fp_sigmoid x p + fp_sigmoid (fp_neg x) p = 2^p` holds exactly (no rounding
slack needed) for every `x > -32768`; the non-negative branch returns the
`(tanh(x/2)+1)/2` formula and the negative branch its complement
`1 - (tanh(|x|/2)+1)/2`. All for precisions `3 <= p <= 14`. -/
theorem claim4_sigmoid_properties :
    (∀ p : Nat, 3 ≤ p → p ≤ 14 → fp_sigmoid 0 p = 2 ^ (p - 1)) ∧
    (∀ (x : Int) (p : Nat), -32768 < x → x ≤ 32767 → 3 ≤ p → p ≤ 14 →
      fp_sigmoid x p + fp_sigmoid (fp_neg x) p = 2 ^ p) ∧
    (∀ (x : Int) (p : Nat), 0 ≤ x → fp_sigmoid x p = sigmoid_pos_spec x p) ∧
    (∀ (x : Int) (p : Nat), x < 0 →
      fp_sigmoid x p = toInt16 (toInt16 (2 ^ p) - sigmoid_pos_spec (fp_neg x) p)) := by
  refine ⟨fun p h3 h14 => ?_,
    fun x p h1 h2 h3 h4 => fp_sigmoid_complement x p h1 h2 h3 h4,
    fun x p hx => fp_sigmoid_pos_branch x p hx,
    fun x p hx => fp_sigmoid_neg_branch x p hx⟩
  interval_cases p <;> decide

/-- Witness for C4 at the test precision of the repository, `p = 8`. -/
theorem claim4_witness :
    fp_sigmoid 0 8 = 2 ^ (8 - 1) ∧
    fp_sigmoid 256 8 + fp_sigmoid (fp_neg 256) 8 = 2 ^ 8 ∧
    fp_sigmoid 256 8 = sigmoid_pos_spec 256 8 ∧
    fp_sigmoid (-256) 8 = toInt16 (toInt16 (2 ^ 8) - sigmoid_pos_spec (fp_neg (-256)) 8) :=
  ⟨claim4_sigmoid_properties.1 8 (by omega) (by omega),
    claim4_sigmoid_properties.2.1 256 8 (by decide) (by decide) (by omega) (by omega),
    claim4_sigmoid_properties.2.2.1 256 8 (by decide),
    claim4_sigmoid_properties.2.2.2 (-256) 8 (by decide)⟩

-- Claim C9 (functional correctness): gate outputs are valid blend weights.

/-- C9: for every 16-bit input and precision `3 <= p <= 13`, `fp_sigmoid`
returns a value in `[0, 2^p]`; the clamped `fp_tanh` lies in
`[-2^p, 2^p]`, and both sigmoid branches stay inside the fixed-point
`[0, 1]` interval. -/
theorem claim9_sigmoid_range :
    ∀ (x : Int) (p : Nat), -32768 ≤ x → x ≤ 32767 → 3 ≤ p → p ≤ 13 →
      (0 ≤ fp_sigmoid x p ∧ fp_sigmoid x p ≤ 2 ^ p) ∧
      (-(2 ^ p) ≤ fp_tanh x p ∧ fp_tanh x p ≤ 2 ^ p) := by
  intro x p _hx1 _hx2 hp3 hp13
  refine ⟨?_, fp_tanh_range x p hp3 (by omega)⟩
  have hppos := pow2_pos p
  have hple : (2:Int) ^ p ≤ 8192 := le_trans (pow2_le_of_le hp13) (by norm_num)
  have hone16 : toInt16 ((2:Int) ^ p) = 2 ^ p := toInt16_eq_self (by omega) (by omega)
  rcases lt_or_le x 0 with hneg | hpos
  · have hb := sigmoid_pos_spec_range (fp_neg x) p hp3 hp13
    rw [fp_sigmoid_neg_branch x p hneg, hone16]
    rw [toInt16_eq_self (by omega) (by omega)]
    omega
  · rw [fp_sigmoid_pos_branch x p hpos]
    exact sigmoid_pos_spec_range x p hp3 hp13

/-- Witness for C9 at the INT16_MIN edge itself. -/
theorem claim9_witness :
    (0 ≤ fp_sigmoid (-32768) 8 ∧ fp_sigmoid (-32768) 8 ≤ 2 ^ 8) ∧
    (-(2 ^ 8) ≤ fp_tanh (-32768) 8 ∧ fp_tanh (-32768) 8 ≤ 2 ^ 8) :=
  claim9_sigmoid_range (-32768) 8 (by decide) (by decide) (by omega) (by omega)

-- Helper lemmas for the div-mul inverse claim.

theorem neg_tmod16 (a b : Int) : (-a).tmod b = -(a.tmod b) := by
  have h1 := Int.tdiv_add_tmod a b
  have h2 := Int.tdiv_add_tmod (-a) b
  rw [Int.neg_tdiv] at h2
  linarith

theorem tmod_nonpos16 (a b : Int) (h : a ≤ 0) : a.tmod b ≤ 0 := by
  have h1 : 0 ≤ (-a).tmod b := Int.tmod_nonneg b (by omega)
  rw [neg_tmod16] at h1
  omega

theorem tdiv_nonpos16 (a b : Int) (h : a ≤ 0) (hb : 0 ≤ b) : a.tdiv b ≤ 0 := by
  have h1 : 0 ≤ (-a).tdiv b := Int.tdiv_nonneg (by omega) hb
  rw [Int.neg_tdiv] at h1
  omega

theorem fp_div_fp_mul_approx (x y : Int) (p : Nat)
    (hx1 : -32768 ≤ x) (hx2 : x ≤ 32767)
    (hy : 2 ^ p ≤ y ∨ y ≤ -(2 ^ p))
    (hm1 : -32768 ≤ (x * y).tdiv (2 ^ p)) (hm2 : (x * y).tdiv (2 ^ p) ≤ 32767) :
    (fp_div (fp_mul x y p) y p - x).natAbs ≤ 1 := by
  have hppos := pow2_pos p
  have hfp : fp_mul x y p = (x * y).tdiv (2 ^ p) := toInt16_eq_self hm1 hm2
  unfold fp_div
  rw [hfp]
  set m := (x * y).tdiv (2 ^ p) with hmdef
  set s := (x * y).tmod (2 ^ p) with hsdef
  have hms : 2 ^ p * m + s = x * y := Int.tdiv_add_tmod _ _
  have hsub : s < 2 ^ p := Int.tmod_lt_of_pos _ hppos
  have hslb : -(2 ^ p) < s := by
    have h1 : (-(x * y)).tmod (2 ^ p) < 2 ^ p := Int.tmod_lt_of_pos _ hppos
    rw [neg_tmod16] at h1
    omega
  have hmP : m * 2 ^ p = x * y - s := by
    rw [mul_comm]
    linarith
  rw [hmP]
  set q := (x * y - s).tdiv y with hqdef
  set r2 := (x * y - s).tmod y with hr2def
  have hqr : y * q + r2 = x * y - s := Int.tdiv_add_tmod _ _
  have hkey : y * (x - q) = s + r2 := by linear_combination -hqr
  -- bounds on q relative to x, by sign cases
  have hmain : x - 1 ≤ q ∧ q ≤ x + 1 ∧ -32768 ≤ q ∧ q ≤ 32767 := by
    rcases hy with hyp | hyn
    · -- y ≥ 2^p > 0
      have hr2ub : r2 < y := Int.tmod_lt_of_pos _ (by omega)
      have hr2lb : -y < r2 := by
        have h1 : (-(x * y - s)).tmod y < y := Int.tmod_lt_of_pos _ (by omega)
        rw [neg_tmod16] at h1
        omega
      rcases le_or_lt 0 x with hx0 | hx0
      · -- x ≥ 0, y > 0
        have hxy : 0 ≤ x * y := mul_nonneg hx0 (by omega)
        have hs0 : 0 ≤ s := hsdef ▸ Int.tmod_nonneg _ hxy
        have hm0 : 0 ≤ m := hmdef ▸ Int.tdiv_nonneg hxy (le_of_lt hppos)
        have hd0 : 0 ≤ x * y - s := by
          rw [← hmP]
          exact mul_nonneg hm0 (le_of_lt hppos)
        have hr0 : 0 ≤ r2 := hr2def ▸ Int.tmod_nonneg _ hd0
        have hqx : q ≤ x := by
          by_contra hq
          push_neg at hq
          have h1 : y * (x - q) < 0 := mul_neg_of_pos_of_neg (by omega) (by omega)
          omega
        have hql : x - 1 ≤ q := by
          by_contra hq
          push_neg at hq
          have h2 : (2:Int) ≤ x - q := by omega
          have h1 : 2 * y ≤ y * (x - q) := by
            calc 2 * y ≤ (x - q) * y := mul_le_mul_of_nonneg_right h2 (by omega)
            _ = y * (x - q) := mul_comm _ _
          rw [hkey] at h1
          omega
        exact ⟨hql, by omega, by omega, by omega⟩
      · -- x < 0, y > 0
        have hxy : x * y ≤ 0 := mul_nonpos_iff.mpr (Or.inr ⟨by omega, by omega⟩)
        have hs0 : s ≤ 0 := hsdef ▸ tmod_nonpos16 _ _ hxy
        have hm0 : m ≤ 0 := hmdef ▸ tdiv_nonpos16 _ _ hxy (le_of_lt hppos)
        have hd0 : x * y - s ≤ 0 := by
          rw [← hmP]
          exact mul_nonpos_iff.mpr (Or.inr ⟨hm0, le_of_lt hppos⟩)
        have hr0 : r2 ≤ 0 := hr2def ▸ tmod_nonpos16 _ _ hd0
        have hqx : x ≤ q := by
          by_contra hq
          push_neg at hq
          have h1 : 0 < y * (x - q) := mul_pos (by omega) (by omega)
          omega
        have hqh : q ≤ x + 1 := by
          by_contra hq
          push_neg at hq
          have h2 : x - q ≤ -2 := by omega
          have h1 : (x - q) * y ≤ -2 * y := mul_le_mul_of_nonneg_right h2 (by omega)
          rw [mul_comm] at h1
          omega
        exact ⟨by omega, hqh, by omega, by omega⟩
    · -- y ≤ -(2^p) < 0
      have hr2ub : r2 < -y := by
        have h1 : (x * y - s).tmod (-y) < -y := Int.tmod_lt_of_pos _ (by omega)
        rw [show (x * y - s).tmod (-y) = (x * y - s).tmod y from Int.tmod_neg _ _] at h1
        omega
      have hr2lb : y < r2 := by
        have h1 : (-(x * y - s)).tmod (-y) < -y := Int.tmod_lt_of_pos _ (by omega)
        rw [show (-(x * y - s)).tmod (-y) = (-(x * y - s)).tmod y from Int.tmod_neg _ _,
          neg_tmod16] at h1
        omega
      rcases le_or_lt 0 x with hx0 | hx0
      · -- x ≥ 0, y < 0
        have hxy : x * y ≤ 0 := mul_nonpos_iff.mpr (Or.inl ⟨hx0, by omega⟩)
        have hs0 : s ≤ 0 := hsdef ▸ tmod_nonpos16 _ _ hxy
        have hm0 : m ≤ 0 := hmdef ▸ tdiv_nonpos16 _ _ hxy (le_of_lt hppos)
        have hd0 : x * y - s ≤ 0 := by
          rw [← hmP]
          exact mul_nonpos_iff.mpr (Or.inr ⟨hm0, le_of_lt hppos⟩)
        have hr0 : r2 ≤ 0 := hr2def ▸ tmod_nonpos16 _ _ hd0
        have hqx : q ≤ x := by
          by_contra hq
          push_neg at hq
          have h1 : 0 < y * (x - q) := mul_pos_of_neg_of_neg (by omega) (by omega)
          omega
        have hql : x - 1 ≤ q := by
          by_contra hq
          push_neg at hq
          have h2 : (2:Int) ≤ x - q := by omega
          have h1 : y * (x - q) ≤ y * 2 := mul_le_mul_of_nonpos_left h2 (by omega)
          rw [hkey] at h1
          omega
        exact ⟨hql, by omega, by omega, by omega⟩
      · -- x < 0, y < 0
        have hxy : 0 ≤ x * y := mul_nonneg_iff.mpr (Or.inr ⟨by omega, by omega⟩)
        have hs0 : 0 ≤ s := hsdef ▸ Int.tmod_nonneg _ hxy
        have hm0 : 0 ≤ m := hmdef ▸ Int.tdiv_nonneg hxy (le_of_lt hppos)
        have hd0 : 0 ≤ x * y - s := by
          rw [← hmP]
          exact mul_nonneg hm0 (le_of_lt hppos)
        have hr0 : 0 ≤ r2 := hr2def ▸ Int.tmod_nonneg _ hd0
        have hqx : x ≤ q := by
          by_contra hq
          push_neg at hq
          have h1 : y * (x - q) < 0 := mul_neg_of_neg_of_pos (by omega) (by omega)
          omega
        have hqh : q ≤ x + 1 := by
          by_contra hq
          push_neg at hq
          have h2 : x - q ≤ -2 := by omega
          have h1 : y * (-2) ≤ y * (x - q) := mul_le_mul_of_nonpos_left h2 (by omega)
          rw [hkey] at h1
          omega
        exact ⟨by omega, hqh, by omega, by omega⟩
  obtain ⟨hql, hqh, hqlo, hqhi⟩ := hmain
  rw [toInt16_eq_self hqlo hqhi]
  omega

-- Claim C8 (numerical): div and mul as approximate inverses.

/-- C8 counterexample: for a divisor smaller than the fixed-point one
(`y = 1` raw at precision 8), `fp_mul 100 1 8` truncates to `0` and the
round trip loses the whole value: the result differs from `x = 100` by 100
units, not one. -/
theorem claim8_counterexample :
    fp_div (fp_mul 100 1 8) 1 8 = 0 ∧
    ¬ ((fp_div (fp_mul 100 1 8) 1 8 - 100).natAbs ≤ 1) := by decide

/-- C8 amended: for every 16-bit `x`, every divisor with `|y| >= 2^p` (at
least 1.0 in fixed point), and every precision such that the intermediate
quotient `tdiv (x*y) 2^p` is itself 16-bit representable (no wrap in
`fp_mul`), the round trip `fp_div (fp_mul x y p) y p` differs from `x` by
at most one raw unit. -/
theorem claim8_div_mul_inverse (x y : Int) (p : Nat)
    (hx1 : -32768 ≤ x) (hx2 : x ≤ 32767)
    (hy : 2 ^ p ≤ y ∨ y ≤ -(2 ^ p))
    (hm1 : -32768 ≤ (x * y).tdiv (2 ^ p)) (hm2 : (x * y).tdiv (2 ^ p) ≤ 32767) :
    (fp_div (fp_mul x y p) y p - x).natAbs ≤ 1 :=
  fp_div_fp_mul_approx x y p hx1 hx2 hy hm1 hm2

/-- Witness for C8 at `x = 100`, `y = 96`, `p = 5` (y is 3.0 in fixed
point). -/
theorem claim8_witness :
    (fp_div (fp_mul 100 96 5) 96 5 - 100).natAbs ≤ 1 :=
  claim8_div_mul_inverse 100 96 5 (by decide) (by decide) (Or.inl (by decide))
    (by decide) (by decide)

-- Helper lemmas for the gated-blend and fused-GRU claims.

theorem complement_entry (z : Int) (p : Nat) (hp : p ≤ 14) :
    fp_add (fp_mul z (int_to_fp (-1) p) p) (int_to_fp 1 p) =
      fp_sub (int_to_fp 1 p) z := by
  have hppos := pow2_pos p
  have hple : (2:Int) ^ p ≤ 16384 := le_trans (pow2_le_of_le hp) (by norm_num)
  have hm : int_to_fp (-1) p = -(2 ^ p) := by
    unfold int_to_fp
    rw [neg_one_mul]
    exact toInt16_eq_self (by omega) (by omega)
  have h1 : int_to_fp 1 p = 2 ^ p := int_to_fp_one hp
  rw [hm, h1]
  unfold fp_mul fp_add fp_sub
  rw [show z * -((2:Int) ^ p) = (-z) * 2 ^ p by ring,
    Int.mul_tdiv_cancel (-z) (by positivity), toInt16_add_left]
  congr 1
  ring

theorem apply_gate_eq_gate_blend (g f s : List Int) (p : Nat) (hp : p ≤ 14) :
    apply_gate g f s p = gate_blend g f s p := by
  induction g generalizing f s with
  | nil => cases f <;> cases s <;> rfl
  | cons zh zt ih =>
    cases f with
    | nil => rfl
    | cons fh ft =>
      cases s with
      | nil => rfl
      | cons sh st =>
        have hih := ih ft st
        simp only [apply_gate, scalar_product, scalar_add, matrix_hadamard, matrix_add,
          List.map_cons, List.zipWith_cons_cons, gate_blend] at hih ⊢
        rw [complement_entry zh p hp]
        exact congrArg _ hih

theorem toInt16_zero : toInt16 0 = 0 := by decide

theorem fp_mul_zero_right (v : Int) (p : Nat) : fp_mul v 0 p = 0 := by
  unfold fp_mul
  rw [mul_zero, Int.zero_tdiv]
  exact toInt16_zero

theorem fp_mul_fp_one (v : Int) (p : Nat) (hp : p ≤ 14)
    (h1 : -32768 ≤ v) (h2 : v ≤ 32767) : fp_mul v (int_to_fp 1 p) p = v := by
  rw [int_to_fp_one hp]
  unfold fp_mul
  rw [Int.mul_tdiv_cancel v (by positivity)]
  exact toInt16_eq_self h1 h2

theorem fp_add_zero_right (v : Int) (h1 : -32768 ≤ v) (h2 : v ≤ 32767) :
    fp_add v 0 = v := by
  unfold fp_add
  rw [add_zero]
  exact toInt16_eq_self h1 h2

theorem fp_add_zero_left (v : Int) (h1 : -32768 ≤ v) (h2 : v ≤ 32767) :
    fp_add 0 v = v := by
  unfold fp_add
  rw [zero_add]
  exact toInt16_eq_self h1 h2

theorem fp_sub_self (a : Int) : fp_sub a a = 0 := by
  unfold fp_sub
  rw [sub_self]
  exact toInt16_zero

theorem fp_sub_zero (a : Int) (h1 : -32768 ≤ a) (h2 : a ≤ 32767) :
    fp_sub a 0 = a := by
  unfold fp_sub
  rw [sub_zero]
  exact toInt16_eq_self h1 h2

theorem gate_blend_ones (f s : List Int) (p : Nat) (hp : p ≤ 14)
    (hlen : s.length = f.length) (hf : ∀ v ∈ f, -32768 ≤ v ∧ v ≤ 32767) :
    gate_blend (List.replicate f.length (int_to_fp 1 p)) f s p = f := by
  induction f generalizing s with
  | nil => rfl
  | cons fh ft ih =>
    cases s with
    | nil => simp at hlen
    | cons sh st =>
      simp only [List.length_cons, List.replicate_succ, gate_blend]
      have hfh := hf fh (by simp)
      rw [fp_sub_self, fp_mul_zero_right, fp_mul_fp_one fh p hp hfh.1 hfh.2,
        fp_add_zero_right fh hfh.1 hfh.2]
      refine congrArg _ (ih st ?_ ?_)
      · simpa using hlen
      · intro v hv
        exact hf v (by simp [hv])

theorem gate_blend_zeros (f s : List Int) (p : Nat) (hp : p ≤ 14)
    (hlen : s.length = f.length) (hs : ∀ v ∈ s, -32768 ≤ v ∧ v ≤ 32767) :
    gate_blend (List.replicate f.length 0) f s p = s := by
  have hppos := pow2_pos p
  have hple : (2:Int) ^ p ≤ 16384 := le_trans (pow2_le_of_le hp) (by norm_num)
  induction f generalizing s with
  | nil =>
    cases s with
    | nil => rfl
    | cons sh st => simp at hlen
  | cons fh ft ih =>
    cases s with
    | nil => simp at hlen
    | cons sh st =>
      simp only [List.length_cons, List.replicate_succ, gate_blend]
      have hsh := hs sh (by simp)
      rw [fp_mul_zero_right, fp_sub_zero (int_to_fp 1 p) (by rw [int_to_fp_one hp]; omega)
          (by rw [int_to_fp_one hp]; omega),
        fp_mul_fp_one sh p hp hsh.1 hsh.2, fp_add_zero_left sh hsh.1 hsh.2]
      refine congrArg _ (ih st ?_ ?_)
      · simpa using hlen
      · intro v hv
        exact hs v (by simp [hv])

theorem copyLoopFuel_slice : ∀ (n : Nat) (dst src : List Int) (idx off : Nat),
    off ≤ idx → idx + n ≤ src.length → (idx - off) + n ≤ dst.length →
    copyLoopFuel n dst src idx off =
      dst.take (idx - off) ++ (src.drop idx).take n ++ dst.drop (idx - off + n) := by
  intro n
  induction n with
  | zero =>
    intro dst src idx off h1 h2 h3
    simp [copyLoopFuel]
  | succ k ih =>
    intro dst src idx off h1 h2 h3
    have hm : idx - off < dst.length := by omega
    have hidx : idx < src.length := by omega
    rw [copyLoopFuel]
    rw [ih (dst.set (idx - off) (src.getD idx 0)) src (idx + 1) off (by omega)
      (by omega) (by rw [List.length_set]; omega)]
    rw [List.set_eq_take_append_cons_drop, if_pos hm]
    have hAlen : (dst.take (idx - off)).length = idx - off := by
      rw [List.length_take]
      omega
    have he1 : idx + 1 - off = (idx - off) + 1 := by omega
    rw [he1]
    rw [List.take_append_eq_append_take, List.drop_append_eq_append_drop, hAlen]
    rw [List.take_of_length_le (by omega : (dst.take (idx - off)).length ≤ idx - off + 1)]
    rw [List.drop_eq_nil_of_le (by omega : (dst.take (idx - off)).length ≤ idx - off + 1 + k)]
    have he2 : idx - off + 1 - (idx - off) = 1 := by omega
    have he3 : idx - off + 1 + k - (idx - off) = k + 1 := by omega
    rw [he2, he3]
    simp only [List.take_succ_cons, List.take_zero, List.drop_succ_cons]
    rw [List.drop_drop]
    have he4 : idx - off + 1 + k = idx - off + (k + 1) := by omega
    rw [he4]
    have hsrc : (src.drop idx).take (k + 1) =
        src.getD idx 0 :: (src.drop (idx + 1)).take k := by
      rw [List.drop_eq_getElem_cons hidx, List.take_succ_cons, List.getD_eq_getElem src 0 hidx]
    rw [hsrc]
    simp [List.append_assoc]

theorem copyLoop_take (g : List Int) (h : Nat) (hg : h ≤ g.length) :
    copyLoop (zeroVec h) g 0 h 0 = g.take h := by
  unfold copyLoop
  rw [Nat.sub_zero]
  rw [copyLoopFuel_slice h (zeroVec h) g 0 0 (by omega) (by omega)
    (by simp [zeroVec])]
  simp [zeroVec]

theorem copyLoop_drop (g : List Int) (h : Nat) (hg : g.length = 2 * h) :
    copyLoop (zeroVec h) g h (2 * h) h = g.drop h := by
  unfold copyLoop
  have h1 : 2 * h - h = h := by omega
  rw [h1]
  rw [copyLoopFuel_slice h (zeroVec h) g h h (le_refl h) (by omega)
    (by simp [zeroVec])]
  have h2 : h - h = 0 := by omega
  rw [h2]
  simp only [List.take_zero, List.nil_append, zero_add]
  have h3 : (zeroVec h).drop h = [] := by
    apply List.drop_eq_nil_of_le
    simp [zeroVec]
  rw [h3, List.append_nil]
  apply List.take_of_length_le
  simp [hg]
  omega

theorem apply_tf_gru_eq_spec (input state : List Int) (gru : TFGRU) (p : Nat)
    (hp : p ≤ 14) (hw : gru.wGates.length = 2 * state.length)
    (hb : gru.bGates.length = 2 * state.length) :
    apply_tf_gru input state gru p = tf_gru_spec input state gru p := by
  have hglen : (apply_elementwise
      (matrix_add (matVec gru.wGates (stack input state) p) gru.bGates)
      fp_sigmoid p).length = 2 * state.length := by
    simp [apply_elementwise, matrix_add, matVec, hw, hb]
  simp only [apply_tf_gru, tf_gru_spec]
  rw [copyLoop_take _ state.length (by omega), copyLoop_drop _ state.length hglen,
    apply_gate_eq_gate_blend _ _ _ _ hp]

-- Claim C7 (algebraic): the gated blend.

/-- C7: `apply_gate` computes `first (*) gate + second (*) (1 - gate)` with
the complement built via `scalar_add(scalar_product(gate, -1), 1)` (equal to
the direct `1 - g` blend `gate_blend`); an all-ones gate returns `first`
unchanged and an all-zeros gate returns exactly `second`. -/
theorem claim7_gate_blend_properties :
    (∀ (g f s : List Int) (p : Nat), p ≤ 14 →
      apply_gate g f s p = gate_blend g f s p) ∧
    (∀ (f s : List Int) (p : Nat), p ≤ 14 → s.length = f.length →
      (∀ v ∈ f, -32768 ≤ v ∧ v ≤ 32767) →
      apply_gate (List.replicate f.length (int_to_fp 1 p)) f s p = f) ∧
    (∀ (f s : List Int) (p : Nat), p ≤ 14 → s.length = f.length →
      (∀ v ∈ s, -32768 ≤ v ∧ v ≤ 32767) →
      apply_gate (zeroVec f.length) f s p = s) := by
  refine ⟨fun g f s p hp => apply_gate_eq_gate_blend g f s p hp,
    fun f s p hp hlen hf => ?_, fun f s p hp hlen hs => ?_⟩
  · rw [apply_gate_eq_gate_blend _ _ _ _ hp]
    exact gate_blend_ones f s p hp hlen hf
  · rw [apply_gate_eq_gate_blend _ _ _ _ hp]
    exact gate_blend_zeros f s p hp hlen hs

/-- Witness for C7 on one-element vectors at precision 3. -/
theorem claim7_witness :
    apply_gate [8] [5] [7] 3 = gate_blend [8] [5] [7] 3 ∧
    apply_gate (List.replicate ([5] : List Int).length (int_to_fp 1 3)) [5] [7] 3 = [5] ∧
    apply_gate (zeroVec ([5] : List Int).length) [5] [7] 3 = [7] :=
  ⟨claim7_gate_blend_properties.1 [8] [5] [7] 3 (by omega),
    claim7_gate_blend_properties.2.1 [5] [7] 3 (by omega) (by decide) (by decide),
    claim7_gate_blend_properties.2.2 [5] [7] 3 (by omega) (by decide) (by decide)⟩

-- Claim C2 (functional correctness): the fused GRU cell refines its spec.

/-- C2: under the shape invariants given in the spec (`wGates` and `bGates` have
`2 * hidden` rows), the fused cell `apply_tf_gru` - including its two
index-based split loops - equals the specified composition: sigmoid gate
block over `vstack(input, state)`, rows `[0, hidden)` as the reset gate and
rows `[hidden, 2*hidden)` as the update gate, reset applied elementwise to
the previous state before re-stacking for the tanh candidate, and the final
gated blend of previous state and candidate by the update gate. -/
theorem claim2_tf_gru_refinement (input state : List Int) (gru : TFGRU) (p : Nat)
    (hp : p ≤ 14) (hw : gru.wGates.length = 2 * state.length)
    (hb : gru.bGates.length = 2 * state.length) :
    apply_tf_gru input state gru p = tf_gru_spec input state gru p :=
  apply_tf_gru_eq_spec input state gru p hp hw hb

/-- Witness for C2 on a concrete 1-hidden-unit, 1-input cell. -/
theorem claim2_witness :
    apply_tf_gru [2] [1] ⟨[[3, 4], [5, 6]], [7, 8], [[1, 2]], [3]⟩ 5 =
      tf_gru_spec [2] [1] ⟨[[3, 4], [5, 6]], [7, 8], [[1, 2]], [3]⟩ 5 :=
  claim2_tf_gru_refinement [2] [1] ⟨[[3, 4], [5, 6]], [7, 8], [[1, 2]], [3]⟩ 5
    (by omega) (by decide) (by decide)
